import Mathlib

/-!
# ModelGuard — shallow embedding and verification

A shallow embedding, in Lean 4, of the parts of the ModelGuard repository that
the claims address:

* `lambdas/put_artifact_update.py` — the PUT /artifacts/{type}/{id} handler
  (`_error_response`, `_apply_updates`, `lambda_handler`);
* `lambdas/post_search_by_regex.py` — `search_artifacts_by_regex`;
* `src/storage/file_extraction.py` — `extract_files_from_tar`,
  `select_relevant_files`, `extract_relevant_files`;
* `src/metrics/code_quality_metric.py` — `CodeQualityMetric.score`.

Python dynamic values are modelled by an inductive `PyVal`; Python dicts are
insertion-ordered association lists (`PyDict`), with lookup returning the
first matching key (keys of a real Python dict are pairwise distinct, which
theorems assume explicitly where it matters).  Python floats are modelled as
`PyFloat` (an exact rational, or one of the three non-finite values); float
arithmetic is exact rather than binary — no claim depends on rounding.
Exceptions are modelled by `Except String`.  The compiled regular expression
of the search endpoint is abstracted as a predicate `String → Bool`: no claim
depends on regex semantics, only on how the scan loop uses the match oracle.
-/

/-- Python float: exact finite rational, or inf / -inf / nan. -/
inductive PyFloat where
  | fin (q : ℚ)
  | inf
  | ninf
  | nan
deriving DecidableEq

/-- Dynamic Python value (the subset reachable in the modelled code). -/
inductive PyVal where
  | none
  | bool (b : Bool)
  | int (n : ℤ)
  | float (f : PyFloat)
  | str (s : String)
  | list (xs : List PyVal)
  | dict (entries : List (String × PyVal))
  | set (xs : List PyVal)

/-- A Python dict with string keys: insertion-ordered association list. -/
abbrev PyDict := List (String × PyVal)

/-- Lookup `d.get(k)` / `d[k]`: first entry whose key is `k`. -/
def dictGet (d : PyDict) (k : String) : Option PyVal :=
  match d with
  | [] => Option.none
  | (k0, v) :: rest => if k0 = k then some v else dictGet rest k

/-- Assignment `d[k] = v`: replace the value at the first occurrence of `k`,
or append `(k, v)` when `k` is absent (insertion order preserved). -/
def dictSet (d : PyDict) (k : String) (v : PyVal) : PyDict :=
  match d with
  | [] => [(k, v)]
  | (k0, v0) :: rest => if k0 = k then (k0, v) :: rest else (k0, v0) :: dictSet rest k v

/-- Removal `d.pop(k, None)`: drop entries with key `k`. -/
def dictErase (d : PyDict) (k : String) : PyDict :=
  d.filter (fun kv => kv.1 ≠ k)

/-- Merge `d.update(src)`: set every entry of `src` into `d`, in order. -/
def dictUpdate (d src : PyDict) : PyDict :=
  src.foldl (fun acc kv => dictSet acc kv.1 kv.2) d

/-- The keys of a dict, in order. -/
def dictKeys (d : PyDict) : List String := d.map Prod.fst

/-- Python truthiness of a value (`bool(v)`). -/
def pyTruthy : PyVal → Bool
  | .none => false
  | .bool b => b
  | .int n => n ≠ 0
  | .float (.fin q) => q ≠ 0
  | .float _ => true
  | .str s => s ≠ ""
  | .list xs => !xs.isEmpty
  | .dict es => !es.isEmpty
  | .set xs => !xs.isEmpty

/-- Python `str.lower()`; character-list implementation (kernel-reducible,
unlike `String.toLower`).  ASCII case mapping suffices for the strings the
modelled code lowers. -/
def pyLower (s : String) : String := String.mk (s.toList.map Char.toLower)

/-- Python `str.startswith(p)`. -/
def pyStartsWith (s p : String) : Bool := p.toList.isPrefixOf s.toList

/-- Python `str.endswith(p)`. -/
def pyEndsWith (s p : String) : Bool := p.toList.isSuffixOf s.toList

section DictLemmas

theorem dictGet_dictSet_self (d : PyDict) (k : String) (v : PyVal) :
    dictGet (dictSet d k v) k = some v := by
  induction d with
  | nil => simp [dictSet, dictGet]
  | cons kv rest ih =>
    obtain ⟨k0, v0⟩ := kv
    by_cases h : k0 = k <;> simp [dictSet, dictGet, h, ih]

theorem dictGet_dictSet_ne (d : PyDict) (k k0 : String) (v : PyVal) (h : k ≠ k0) :
    dictGet (dictSet d k v) k0 = dictGet d k0 := by
  induction d with
  | nil => simp [dictSet, dictGet, h]
  | cons kv rest ih =>
    obtain ⟨k1, v1⟩ := kv
    by_cases h1 : k1 = k
    · subst h1
      simp [dictSet, dictGet, h]
    · simp [dictSet, dictGet, h1, ih]

theorem dictGet_cons_ne (k0 : String) (v0 : PyVal) (d : PyDict) (k : String)
    (h : k0 ≠ k) : dictGet ((k0, v0) :: d) k = dictGet d k := by
  simp [dictGet, h]

theorem mem_dictErase_ne (d : PyDict) (k : String) :
    ∀ kv ∈ dictErase d k, kv.1 ≠ k := by
  intro kv hkv
  have := List.of_mem_filter hkv
  simpa using this

theorem dictGet_eq_none_of_not_mem_keys (d : PyDict) (k : String)
    (h : k ∉ dictKeys d) : dictGet d k = Option.none := by
  induction d with
  | nil => simp [dictGet]
  | cons kv rest ih =>
    obtain ⟨k0, v0⟩ := kv
    have hne : k0 ≠ k := by
      intro he
      exact h (by simp [dictKeys, he])
    have h' : k ∉ dictKeys rest := fun hm => h (by simp [dictKeys] at hm ⊢; tauto)
    simp [dictGet, hne, ih h']

/-- Looking a key up in a shallow merge: the source dict wins when it holds
the key (first occurrence), otherwise the destination's binding survives.
Requires the source's keys to be pairwise distinct, as they are in a real
Python dict. -/
theorem dictGet_dictUpdate (src : PyDict) (hnd : (dictKeys src).Nodup) :
    ∀ (d : PyDict) (k : String),
      dictGet (dictUpdate d src) k =
        match dictGet src k with
        | some v => some v
        | Option.none => dictGet d k := by
  induction src with
  | nil => intro d k; simp [dictUpdate, dictGet]
  | cons kv rest ih =>
    intro d k
    obtain ⟨k0, v0⟩ := kv
    have hcons : (k0 :: dictKeys rest).Nodup := hnd
    have hnd' : (dictKeys rest).Nodup := (List.nodup_cons.mp hcons).2
    have hk0 : k0 ∉ dictKeys rest := (List.nodup_cons.mp hcons).1
    have step : dictUpdate d ((k0, v0) :: rest) = dictUpdate (dictSet d k0 v0) rest := by
      simp [dictUpdate]
    rw [step, ih hnd']
    by_cases h : k0 = k
    · subst h
      have hrest : dictGet rest k0 = Option.none :=
        dictGet_eq_none_of_not_mem_keys rest k0 hk0
      simp [hrest, dictGet, dictGet_dictSet_self]
    · have : dictGet (dictSet d k0 v0) k = dictGet d k :=
        dictGet_dictSet_ne d k0 k v0 h
      simp [dictGet, h, this]

end DictLemmas

/-! ## JSON serialization (`json.dumps`)

Python's `json.dumps` on the values reachable in the handlers.  A `set` is
not JSON serializable and raises `TypeError`.  The textual rendering of a
non-integral float and the full escape table are abstracted (no claim ever
inspects a serialized float or an escaped character); structure, key order
and the set-failure are faithful. -/

/-- Render a float as JSON text (decimal rendering of non-integral finite
values is a placeholder; never observed by a claim). -/
def floatRepr : PyFloat → String
  | .fin q => if q.den = 1 then toString q.num ++ ".0" else toString q
  | .inf => "Infinity"
  | .ninf => "-Infinity"
  | .nan => "NaN"

/-- Quote a string as a JSON string literal (escape table abstracted to the
two structural characters). -/
def jsonQuote (s : String) : String :=
  "\"" ++ String.join (s.toList.map (fun c =>
    if c = '"' then "\\\"" else if c = '\\' then "\\\\" else String.singleton c)) ++ "\""

mutual

def jsonDumps : PyVal → Except String String
  | .none => .ok "null"
  | .bool b => .ok (if b then "true" else "false")
  | .int n => .ok (toString n)
  | .float f => .ok (floatRepr f)
  | .str s => .ok (jsonQuote s)
  | .list xs => do
      let parts ← jsonDumpsList xs
      pure ("[" ++ String.intercalate ", " parts ++ "]")
  | .dict es => do
      let parts ← jsonDumpsEntries es
      pure ("\x7b" ++ String.intercalate ", " parts ++ "\x7d")
  | .set _ => .error "TypeError: Object of type set is not JSON serializable"

def jsonDumpsList : List PyVal → Except String (List String)
  | [] => .ok []
  | v :: vs => do
      let s ← jsonDumps v
      let rest ← jsonDumpsList vs
      pure (s :: rest)

def jsonDumpsEntries : List (String × PyVal) → Except String (List String)
  | [] => .ok []
  | (k, v) :: es => do
      let s ← jsonDumps v
      let rest ← jsonDumpsEntries es
      pure ((jsonQuote k ++ ": " ++ s) :: rest)

end

/-- Python subscript assignment `v[k] = x`: works on a dict, raises
`TypeError` on a set (or any other non-subscriptable value). -/
def pySetItem (v : PyVal) (k : String) (x : PyVal) : Except String PyVal :=
  match v with
  | .dict es => .ok (.dict (dictSet es k x))
  | .set _ => .error "TypeError: set object does not support item assignment"
  | _ => .error "TypeError: object does not support item assignment"

/-! ## `lambdas/put_artifact_update.py` -/

namespace PutArtifactUpdate

/-- API Gateway response produced by `_create_response`. -/
structure Response where
  statusCode : Nat
  headers : List (String × String)
  body : String
deriving DecidableEq

/-- Default headers of `_create_response`. -/
def defaultHeaders : List (String × String) :=
  [("Content-Type", "application/json"),
   ("Access-Control-Allow-Origin", "*"),
   ("Access-Control-Allow-Headers", "Content-Type,X-Amz-Date,Authorization,X-Api-Key"),
   ("Access-Control-Allow-Methods", "GET,POST,PUT,DELETE,OPTIONS")]

/-- Model of `_create_response` (the optional extra-headers argument is `None` at
every call site and is omitted).  `json.dumps` may raise. -/
def createResponse (status : Nat) (body : PyVal) : Except String Response := do
  let s ← jsonDumps body
  pure ⟨status, defaultHeaders, s⟩

/-- Model of `_error_response`.  The source builds the body with the literal
`body = ("error", message)` written with braces — a set literal, not a dict
(`put_artifact_update.py` line 76) — so the subsequent subscript assignment
of `error_code` works on a set, and the final `json.dumps` receives a set. -/
def errorResponse (status : Nat) (message : String) (errorCode : Option String) :
    Except String Response := do
  let body : PyVal := .set [.str "error", .str message]
  let body ←
    match errorCode with
    | some c => if c = "" then pure body else pySetItem body "error_code" (.str c)
    | Option.none => pure body
  createResponse status body

/-- Model of `validate_token` of the update lambda (note the colon after bearer). -/
def validateToken (token : String) : Bool :=
  token ≠ "" && pyStartsWith (pyLower token) "bearer: "

/-- One iteration of the `_apply_updates` loop body: apply a single
`key = value` update to the existing item. -/
def applyOne (item : PyDict) (key : String) (value : PyVal) : PyDict :=
  if key = "metadata" then
    match value with
    | .dict pv =>
        match dictGet item "metadata" with
        | some (.dict mv) => dictSet item "metadata" (.dict (dictUpdate mv pv))
        | _ => dictSet item "metadata" (.dict pv)
    | v => dictSet item key v
  else dictSet item key value

/-- Model of `_apply_updates`: drop the protected keys from the patch, then apply the
remaining entries in order. -/
def applyUpdates (item : PyDict) (updates : PyDict) : PyDict :=
  let updates := dictErase (dictErase updates "artifact_id") "artifact_type"
  updates.foldl (fun it kv => applyOne it kv.1 kv.2) item

/-- The pieces of the API Gateway event that the handler reads.  JSON
parsing of the raw body (`_parse_body`) is abstracted: `bodyUpdates` is the
parsed update dict. -/
structure UpdateEvent where
  authHeader : Option String
  pathId : Option String
  pathArtifactType : Option String
  bodyUpdates : PyDict

/-- Behaviour of the DynamoDB collaborator during one handler invocation. -/
structure StoreBehavior where
  available : Bool
  getResult : Except String (Option PyDict)
  putResult : Except String Unit

/-- Expression `(item.get("artifact_type") or "").lower()`: a falsy value yields `""`;
a truthy non-string has no `.lower` and raises. -/
def lowerOrEmpty (v : Option PyVal) : Except String String :=
  match v with
  | some pv =>
      if pyTruthy pv then
        match pv with
        | .str s => .ok (pyLower s)
        | _ => .error "AttributeError: object has no attribute lower"
      else .ok ""
  | Option.none => .ok ""

/-- Lookup `item.get(k)`: `None` when the key is absent. -/
def pyGetD (d : PyDict) (k : String) : PyVal :=
  (dictGet d k).getD PyVal.none

/-- Model of `lambda_handler` of `put_artifact_update.py`.  Error-message texts follow
the source minus the quote characters around interpolated values. -/
def lambdaHandler (ev : UpdateEvent) (store : StoreBehavior) : Except String Response :=
  let authOk :=
    match ev.authHeader with
    | Option.none => false
    | some t => validateToken t
  if !authOk then errorResponse 403 "Authentication failed" (some "AUTH_FAILED")
  else
    match ev.pathId with
    | Option.none => errorResponse 400 "Missing artifact id in path" (some "MISSING_ID")
    | some artifactId =>
      if artifactId = "" then
        errorResponse 400 "Missing artifact id in path" (some "MISSING_ID")
      else
        match ev.pathArtifactType with
        | Option.none =>
            errorResponse 400 "Missing artifact_type in path" (some "MISSING_TYPE")
        | some rawType =>
          if rawType = "" then
            errorResponse 400 "Missing artifact_type in path" (some "MISSING_TYPE")
          else
            let artifactType := pyLower rawType
            if artifactType ≠ "model" ∧ artifactType ≠ "dataset" ∧ artifactType ≠ "code" then
              errorResponse 400 ("Invalid artifact_type: " ++ rawType) (some "INVALID_TYPE")
            else if ev.bodyUpdates.isEmpty then
              errorResponse 400 "Request body must contain fields to update"
                (some "EMPTY_UPDATE")
            else if !store.available then
              errorResponse 500 "DynamoDB table not available" (some "DDB_NOT_AVAILABLE")
            else
              match store.getResult with
              | .error _ =>
                  errorResponse 500 "Failed to load artifact" (some "DDB_GET_FAILED")
              | .ok itemOpt =>
                let itemFalsy :=
                  match itemOpt with
                  | Option.none => true
                  | some d => d.isEmpty
                if itemFalsy then
                  errorResponse 404 ("Artifact " ++ artifactId ++ " not found")
                    (some "NOT_FOUND")
                else
                  match itemOpt with
                  | Option.none =>
                      errorResponse 404 ("Artifact " ++ artifactId ++ " not found")
                        (some "NOT_FOUND")
                  | some item => do
                    let storedType ← lowerOrEmpty (dictGet item "artifact_type")
                    if storedType ≠ "" ∧ storedType ≠ artifactType then
                      errorResponse 409
                        ("Artifact type mismatch. Stored type is " ++ storedType ++
                          ",but " ++ artifactType ++ " was requested.")
                        (some "TYPE_MISMATCH")
                    else
                      let updatedItem := applyUpdates item ev.bodyUpdates
                      match store.putResult with
                      | .error _ =>
                          errorResponse 500 "Failed to update artifact"
                            (some "DDB_PUT_FAILED")
                      | .ok _ =>
                        createResponse 200 (.dict
                          [("message", .str "Artifact updated successfully"),
                           ("artifact", .dict
                             [("id", .str artifactId),
                              ("name", pyGetD updatedItem "name"),
                              ("type", pyGetD updatedItem "artifact_type"),
                              ("metadata", pyGetD updatedItem "metadata")])])

end PutArtifactUpdate

/-! ## `lambdas/post_search_by_regex.py`

`search_artifacts_by_regex` scans the table page by page.  The compiled
case-insensitive regex is abstracted as a match oracle `regMatch : String →
Bool` (`regex.search(text)` truthiness); the DynamoDB scan is abstracted as
the list of pages the table would return in order, a page after the last one
carrying no `LastEvaluatedKey`.  The model also counts how many pages are
fetched (one `table.scan` call per consumed page). -/

namespace SearchByRegex

/-- The fields the scan loop reads from a stored item. -/
structure Item where
  name : PyVal
  artifact_id : PyVal
  artifact_type : PyVal
  metadata : PyVal

/-- A search result entry (the `{name, id, type}` projection). -/
structure SearchResult where
  name : String
  id : String
  type : String
deriving DecidableEq

/-- The string values of a metadata mapping, in order; anything that is not
a mapping contributes nothing. -/
def stringValues : PyVal → List String
  | .dict es => es.foldr (fun kv acc =>
      match kv.2 with
      | .str s => s :: acc
      | _ => acc) []
  | _ => []

/-- Whether the optional type filter is active (`if artifact_type_filter:`
— `None` and the empty string are both falsy). -/
def filterActive : Option String → Bool
  | Option.none => false
  | some f => f ≠ ""

/-- The checks of the scan loop body, in source order: an item yields a
result projection, or is skipped (`continue`). -/
def itemResult (regMatch : String → Bool) (filt : Option String)
    (it : Item) : Option SearchResult :=
  match it.name, it.artifact_id with
  | .str name, .str artifactId =>
      match it.artifact_type with
      | .str typeRaw =>
          let artifactType := pyLower typeRaw
          if filterActive filt ∧ some artifactType ≠ filt then Option.none
          else
            let searchableText := String.intercalate "\n" (name :: stringValues it.metadata)
            if !regMatch searchableText then Option.none
            else some ⟨name, artifactId, artifactType⟩
      | _ => Option.none
  | _, _ => Option.none

/-- The `for item in items` loop over one page: append each yielded result,
then check `len(results) >= limit`.  Returns the accumulator and `true`
when the early `return results` fired. -/
def processPage (regMatch : String → Bool) (filt : Option String) (limit : ℤ) :
    List Item → List SearchResult → List SearchResult × Bool
  | [], acc => (acc, false)
  | it :: its, acc =>
      match itemResult regMatch filt it with
      | Option.none => processPage regMatch filt limit its acc
      | some r =>
          if ((acc ++ [r]).length : ℤ) ≥ limit then (acc ++ [r], true)
          else processPage regMatch filt limit its (acc ++ [r])

/-- The `while True` pagination loop.  The second component counts the
pages fetched (`table.scan` calls). -/
def scanLoop (regMatch : String → Bool) (filt : Option String) (limit : ℤ) :
    List (List Item) → List SearchResult → List SearchResult × ℕ
  | [], acc => (acc, 0)
  | page :: rest, acc =>
      match processPage regMatch filt limit page acc with
      | (acc2, true) => (acc2, 1)
      | (acc2, false) =>
          let next := scanLoop regMatch filt limit rest acc2
          (next.1, next.2 + 1)

/-- Model of `search_artifacts_by_regex` (after successful regex compilation),
returning the result list together with the number of pages fetched. -/
def searchArtifactsByRegex (regMatch : String → Bool) (filt : Option String)
    (limit : ℤ) (pages : List (List Item)) : List SearchResult × ℕ :=
  scanLoop regMatch filt limit pages []

end SearchByRegex

/-! ## `src/storage/file_extraction.py`

`extract_files_from_tar` reads each regular-file member, decodes its raw
bytes as UTF-8 — the source passes `errors="ignore"` — and truncates the
text to `max_chars` characters.  The decoder below implements the UTF-8
decoding Python's codec performs, parameterized by the error mode: on a
malformed sequence the maximal valid subpart is consumed and either dropped
(`ignore`) or replaced by U+FFFD (`replace`). -/

namespace FileExtraction

/-- Continuation byte: `0x80 ≤ b ≤ 0xBF`. -/
def isCont (b : ℕ) : Bool := 0x80 ≤ b ∧ b ≤ 0xBF

/-- Decode one UTF-8 sequence whose lead byte is `b`: `(some c, k)` on
success with `k` continuation bytes consumed from `rest`, or `(none, k)` on
a malformed sequence with `k` the length of its maximal valid subpart past
the lead byte.  Overlong encodings and surrogates are rejected, as in
Python's codec. -/
def utf8Step (b : ℕ) (rest : List ℕ) : Option Char × ℕ :=
  if b ≤ 0x7F then (some (Char.ofNat b), 0)
  else if 0xC2 ≤ b ∧ b ≤ 0xDF then
    match rest with
    | c1 :: _ =>
        if isCont c1 then (some (Char.ofNat ((b - 0xC0) * 64 + (c1 - 0x80))), 1)
        else (Option.none, 0)
    | [] => (Option.none, 0)
  else if 0xE0 ≤ b ∧ b ≤ 0xEF then
    let lo2 : ℕ := if b = 0xE0 then 0xA0 else 0x80
    let hi2 : ℕ := if b = 0xED then 0x9F else 0xBF
    match rest with
    | c1 :: rest1 =>
        if lo2 ≤ c1 ∧ c1 ≤ hi2 then
          match rest1 with
          | c2 :: _ =>
              if isCont c2 then
                (some (Char.ofNat ((b - 0xE0) * 4096 + (c1 - 0x80) * 64 + (c2 - 0x80))), 2)
              else (Option.none, 1)
          | [] => (Option.none, 1)
        else (Option.none, 0)
    | [] => (Option.none, 0)
  else if 0xF0 ≤ b ∧ b ≤ 0xF4 then
    let lo2 : ℕ := if b = 0xF0 then 0x90 else 0x80
    let hi2 : ℕ := if b = 0xF4 then 0x8F else 0xBF
    match rest with
    | c1 :: rest1 =>
        if lo2 ≤ c1 ∧ c1 ≤ hi2 then
          match rest1 with
          | c2 :: rest2 =>
              if isCont c2 then
                match rest2 with
                | c3 :: _ =>
                    if isCont c3 then
                      (some (Char.ofNat ((b - 0xF0) * 262144 + (c1 - 0x80) * 4096 +
                        (c2 - 0x80) * 64 + (c3 - 0x80))), 3)
                    else (Option.none, 2)
                | [] => (Option.none, 2)
              else (Option.none, 1)
          | [] => (Option.none, 1)
        else (Option.none, 0)
    | [] => (Option.none, 0)
  else (Option.none, 0)

/-- Driver of the decode loop, structurally recursive on a fuel argument;
each step consumes at least the lead byte, so fuel `l.length` always
suffices (`utf8DecodeFuel_fuel_irrelevant`). -/
def utf8DecodeFuel (replace : Bool) : ℕ → List ℕ → List Char
  | _, [] => []
  | 0, _ :: _ => []
  | fuel + 1, b :: rest =>
      let st := utf8Step b rest
      let tail := utf8DecodeFuel replace fuel (rest.drop st.2)
      match st.1 with
      | some c => c :: tail
      | Option.none => if replace then Char.ofNat 0xFFFD :: tail else tail

/-- Decoding `bytes.decode("utf-8", errors=...)`: `replace = false` models
`errors="ignore"` (drop malformed subparts), `replace = true` models
`errors="replace"` (substitute U+FFFD).  Total: neither mode ever throws. -/
def utf8Decode (replace : Bool) (l : List ℕ) : List Char :=
  utf8DecodeFuel replace l.length l

/-- Any fuel at least the byte count gives the same decode, so the fuel is
an implementation artifact, not part of the semantics. -/
theorem utf8DecodeFuel_fuel_irrelevant (replace : Bool) :
    ∀ (fuel1 : ℕ) (l : List ℕ) (fuel2 : ℕ), l.length ≤ fuel1 → l.length ≤ fuel2 →
      utf8DecodeFuel replace fuel1 l = utf8DecodeFuel replace fuel2 l := by
  intro fuel1
  induction fuel1 with
  | zero =>
    intro l fuel2 h1 _
    cases l with
    | nil =>
      cases fuel2 <;> rfl
    | cons b rest => simp at h1
  | succ f1 ih =>
    intro l fuel2 h1 h2
    cases l with
    | nil => cases fuel2 <;> rfl
    | cons b rest =>
      cases fuel2 with
      | zero => simp at h2
      | succ f2 =>
        simp only [utf8DecodeFuel]
        have hdrop : (rest.drop (utf8Step b rest).2).length ≤ f1 := by
          have := List.length_drop (utf8Step b rest).2 rest
          simp only [List.length_cons] at h1
          omega
        have hdrop2 : (rest.drop (utf8Step b rest).2).length ≤ f2 := by
          have := List.length_drop (utf8Step b rest).2 rest
          simp only [List.length_cons] at h2
          omega
        rw [ih (rest.drop (utf8Step b rest).2) f2 hdrop hdrop2]

/-- A member of the tar archive, as the extraction loop sees it:
`tar.extractfile(m)` may return `None` (`data = none`). -/
structure TarEntry where
  name : String
  isfile : Bool
  data : Option (List ℕ)

/-- Assignment `files[name] = content` on the accumulating `path -> content` dict. -/
def putFile (files : List (String × String)) (k : String) (v : String) :
    List (String × String) :=
  match files with
  | [] => [(k, v)]
  | (k0, v0) :: rest => if k0 = k then (k0, v) :: rest else (k0, v0) :: putFile rest k v

/-- Lookup in the `path -> content` dict (first match). -/
def getFile (files : List (String × String)) (k : String) : Option String :=
  match files with
  | [] => Option.none
  | (k0, v) :: rest => if k0 = k then some v else getFile rest k

/-- Model of `extract_files_from_tar`: keep regular files, skip members without an
extractable stream, decode with `errors="ignore"`, truncate to `max_chars`
characters. -/
def extractFilesFromTar (entries : List TarEntry) (maxChars : ℕ) :
    List (String × String) :=
  (entries.filter (fun m => m.isfile)).foldl (fun files m =>
    match m.data with
    | Option.none => files
    | some bytes =>
        putFile files m.name (String.mk ((utf8Decode false bytes).take maxChars))) []

/-- The extraction step as the spec describes it: identical except that the
bytes are decoded with invalid-sequence *replacement*.  Used only to compare
the spec's wording against the source behaviour. -/
def extractFilesFromTarSpecReplace (entries : List TarEntry) (maxChars : ℕ) :
    List (String × String) :=
  (entries.filter (fun m => m.isfile)).foldl (fun files m =>
    match m.data with
    | Option.none => files
    | some bytes =>
        putFile files m.name (String.mk ((utf8Decode true bytes).take maxChars))) []

/-- Containment `needle in hay` on character lists (Python substring test). -/
def containsSub (needle : List Char) : List Char → Bool
  | [] => needle.isEmpty
  | c :: rest => needle.isPrefixOf (c :: rest) || containsSub needle rest

/-- Model of `is_readme` (nested in `select_relevant_files`). -/
def isReadme (name : String) : Bool :=
  let n := pyLower name
  containsSub "readme".toList n.toList || pyEndsWith n "readme.md" || pyEndsWith n "readme"

/-- First component of the sort key: README matches (under the readme rule)
sort before everything else. -/
def sortFlag (prioritizeReadme : Bool) (name : String) : ℕ :=
  if prioritizeReadme && isReadme name then 0 else 1

/-- The comparison `candidates.sort(key=...)` sorts by: the pair
`(sortFlag, lower-cased name)` lexicographically. -/
def candLe (prioritizeReadme : Bool) (a b : String × String) : Bool :=
  if sortFlag prioritizeReadme a.1 < sortFlag prioritizeReadme b.1 then true
  else if sortFlag prioritizeReadme a.1 = sortFlag prioritizeReadme b.1 then
    decide ((pyLower a.1).data ≤ (pyLower b.1).data)
  else false

/-- Model of `select_relevant_files`: filter candidates (README rule first, then the
extension allow-list), stable-sort by the two-level key, take the first
`max_files`.  Python's `list.sort` is a stable sort, as is `mergeSort`. -/
def selectRelevantFiles (allFiles : List (String × String)) (includeExt : List String)
    (maxFiles : ℕ) (prioritizeReadme : Bool) : List (String × String) :=
  let candidates := allFiles.filter (fun p =>
    (prioritizeReadme && isReadme p.1) ||
      includeExt.any (fun ext => pyEndsWith (pyLower p.1) ext))
  let sorted := candidates.mergeSort (candLe prioritizeReadme)
  sorted.take maxFiles

/-- Model of `extract_relevant_files`: the composition used by the scorer. -/
def extractRelevantFiles (entries : List TarEntry) (includeExt : List String)
    (maxFiles : ℕ) (maxChars : ℕ) (prioritizeReadme : Bool) :
    List (String × String) :=
  selectRelevantFiles (extractFilesFromTar entries maxChars) includeExt maxFiles
    prioritizeReadme

end FileExtraction

/-! ## Python `float(x)` coercion

`float` succeeds on floats, ints, bools, and numeric strings (optionally
signed decimal with optional fraction, exponent and PEP-515 underscores, or
`inf`/`infinity`/`nan`, surrounded by whitespace); it raises `TypeError` /
`ValueError` on everything else.  Finite values are exact rationals. -/

namespace PyFloatCoerce

/-- Parse `digit (("_")? digit)*`, greedily: returns accumulated value,
digit count and the unconsumed rest.  An underscore is consumed only when a
digit follows (otherwise it is left for the caller, which will fail). -/
def digitRun : ℕ → ℕ → List Char → ℕ × ℕ × List Char
  | acc, cnt, '_' :: d :: rest =>
      if d.isDigit then digitRun (acc * 10 + (d.toNat - '0'.toNat)) (cnt + 1) rest
      else (acc, cnt, '_' :: d :: rest)
  | acc, cnt, c :: rest =>
      if c.isDigit then digitRun (acc * 10 + (c.toNat - '0'.toNat)) (cnt + 1) rest
      else (acc, cnt, c :: rest)
  | acc, cnt, [] => (acc, cnt, [])

/-- Parse the unsigned numeric body `digitpart [. [digitpart]] [exp]` or
`. digitpart [exp]`; the whole input must be consumed. -/
def parseBody (cs : List Char) : Option ℚ :=
  let (ival, icnt, r1) := digitRun 0 0 cs
  let (fval, fcnt, r2) :=
    match r1 with
    | '.' :: r => digitRun 0 0 r
    | _ => (0, 0, r1)
  if icnt + fcnt = 0 then Option.none
  else
    let mantissa : ℚ := (ival : ℚ) + (fval : ℚ) / ((10 : ℚ) ^ fcnt)
    match r2 with
    | [] => some mantissa
    | e :: r3 =>
        if e = 'e' ∨ e = 'E' then
          let (esign, r4) :=
            match r3 with
            | '+' :: r => ((1 : ℤ), r)
            | '-' :: r => ((-1 : ℤ), r)
            | _ => ((1 : ℤ), r3)
          let (eval, ecnt, r5) := digitRun 0 0 r4
          if ecnt = 0 ∨ ¬ r5.isEmpty then Option.none
          else
            let scale : ℚ := (10 : ℚ) ^ (eval : ℕ)
            some (if esign = 1 then mantissa * scale else mantissa / scale)
        else Option.none

/-- Coercion `float(s)` for a string `s`. -/
def ofString (s : String) : Option PyFloat :=
  let cs := (s.toList.dropWhile Char.isWhitespace).reverse.dropWhile Char.isWhitespace
    |>.reverse
  let (neg, body) :=
    match cs with
    | '+' :: r => (false, r)
    | '-' :: r => (true, r)
    | _ => (false, cs)
  let low := body.map Char.toLower
  if low = "inf".toList ∨ low = "infinity".toList then
    some (if neg then .ninf else .inf)
  else if low = "nan".toList then some .nan
  else
    match parseBody body with
    | some q => some (.fin (if neg then -q else q))
    | Option.none => Option.none

end PyFloatCoerce

/-- Coercion `float(v)` on a dynamic value: `none` models a raised
`TypeError`/`ValueError`. -/
def pyFloat : PyVal → Option PyFloat
  | .float f => some f
  | .int n => some (.fin (n : ℚ))
  | .bool b => some (.fin (if b then 1 else 0))
  | .str s => PyFloatCoerce.ofString s
  | _ => Option.none

/-! ## `src/metrics/code_quality_metric.py` — `CodeQualityMetric.score`

The pipeline's effectful collaborators are abstracted by their outcomes for
one invocation: the S3 download either returns or raises; extraction always
returns a file mapping (`extract_files_from_tar` catches its own errors);
`ask_llm` either returns a value (`None` on its internally-caught failures,
since it returns `Optional`) or raises.  Prompt building is pure string
assembly and cannot fail.  The temporary-file bookkeeping of the `finally`
block has no effect on the returned value and is not modelled. -/

namespace CodeQuality

/-- Outcomes of the collaborators during one `score` call. -/
structure ScoreEnv where
  download : Except String Unit
  extracted : List (String × String)
  llm : Except String PyVal

/-- The fallback result `{"code_quality": 0.0}`. -/
def cqZero : List (String × PyFloat) := [("code_quality", .fin 0)]

/-- Model of `CodeQualityMetric.score`.  Total: every failure path, including any
exception from a collaborator, produces the fallback dict — the top-level
`except Exception` converts faults into `{"code_quality": 0.0}`. -/
def score (env : ScoreEnv) : List (String × PyFloat) :=
  match env.download with
  | .error _ => cqZero
  | .ok _ =>
      if env.extracted.isEmpty then cqZero
      else
        match env.llm with
        | .error _ => cqZero
        | .ok response =>
            match response with
            | .dict es =>
                match dictGet es "code_quality" with
                | some v =>
                    match pyFloat v with
                    | some f => [("code_quality", f)]
                    | Option.none => cqZero
                | Option.none => cqZero
            | _ => cqZero

end CodeQuality

/-! ## Lemmas about `_apply_updates` -/

namespace PutArtifactUpdate

theorem dictGet_dictErase_ne (d : PyDict) (ke k : String) (h : k ≠ ke) :
    dictGet (dictErase d ke) k = dictGet d k := by
  induction d with
  | nil => simp [dictErase, dictGet]
  | cons kv rest ih =>
    obtain ⟨k0, v0⟩ := kv
    by_cases h0 : k0 = ke
    · subst h0
      have herase : dictErase ((k0, v0) :: rest) k0 = dictErase rest k0 := by
        simp [dictErase]
      have hne : k0 ≠ k := fun he => h he.symm
      rw [herase, ih, dictGet_cons_ne k0 v0 rest k hne]
    · have herase : dictErase ((k0, v0) :: rest) ke = (k0, v0) :: dictErase rest ke := by
        simp [dictErase, h0]
      rw [herase]
      by_cases hk : k0 = k
      · subst hk
        simp [dictGet]
      · rw [dictGet_cons_ne k0 v0 _ k hk, dictGet_cons_ne k0 v0 rest k hk, ih]

theorem dictKeys_dictErase_sublist (d : PyDict) (k : String) :
    (dictKeys (dictErase d k)).Sublist (dictKeys d) :=
  (List.filter_sublist d).map Prod.fst

/-- An `applyOne` step writes only to its own key: looking up any other key is
unchanged. -/
theorem dictGet_applyOne_ne (item : PyDict) (key : String) (v : PyVal)
    (k : String) (h : k ≠ key) :
    dictGet (applyOne item key v) k = dictGet item k := by
  have hk : key ≠ k := fun he => h he.symm
  by_cases hm : key = "metadata"
  · subst hm
    cases v <;>
      simp only [applyOne, if_pos rfl] <;>
      first
        | exact dictGet_dictSet_ne item _ k _ hk
        | (rename_i es
           cases hg : dictGet item "metadata" with
           | none => simp [hg, dictGet_dictSet_ne item _ k _ hk]
           | some w =>
             cases w <;> simp [hg, dictGet_dictSet_ne item _ k _ hk])
  · simp [applyOne, hm, dictGet_dictSet_ne item key k v hk]

/-- Folding update entries none of which touches key `k` leaves `k`'s
binding unchanged. -/
theorem dictGet_foldl_applyOne (k : String) :
    ∀ (us : PyDict), (∀ kv ∈ us, kv.1 ≠ k) → ∀ item : PyDict,
      dictGet (us.foldl (fun it kv => applyOne it kv.1 kv.2) item) k = dictGet item k := by
  intro us
  induction us with
  | nil => intro _ item; simp
  | cons kv rest ih =>
    intro h item
    have hkv : kv.1 ≠ k := h kv (by simp)
    have hrest : ∀ kv2 ∈ rest, kv2.1 ≠ k := fun kv2 hm => h kv2 (by simp [hm])
    have hne : k ≠ kv.1 := fun he => hkv he.symm
    simp only [List.foldl_cons]
    rw [ih hrest, dictGet_applyOne_ne item kv.1 kv.2 k hne]

end PutArtifactUpdate

/-- C8: for every existing record and every patch, `_apply_updates` leaves
the record's `artifact_id` and `artifact_type` bindings unchanged: the two
protected keys are dropped from the patch before the merge loop, and every
remaining patch entry writes only its own key. -/
theorem update_preserves_id_and_type (item updates : PyDict) :
    dictGet (PutArtifactUpdate.applyUpdates item updates) "artifact_id" =
      dictGet item "artifact_id" ∧
    dictGet (PutArtifactUpdate.applyUpdates item updates) "artifact_type" =
      dictGet item "artifact_type" := by
  unfold PutArtifactUpdate.applyUpdates
  set us := dictErase (dictErase updates "artifact_id") "artifact_type" with hus
  have hid : ∀ kv ∈ us, kv.1 ≠ "artifact_id" := by
    intro kv hm
    have hm1 : kv ∈ dictErase (dictErase updates "artifact_id") "artifact_type" := hm
    have hm2 : kv ∈ dictErase updates "artifact_id" := List.mem_of_mem_filter hm1
    exact mem_dictErase_ne updates "artifact_id" kv hm2
  have hty : ∀ kv ∈ us, kv.1 ≠ "artifact_type" := by
    intro kv hm
    exact mem_dictErase_ne (dictErase updates "artifact_id") "artifact_type" kv
      (by simpa [hus] using hm)
  exact ⟨PutArtifactUpdate.dictGet_foldl_applyOne "artifact_id" us hid item,
         PutArtifactUpdate.dictGet_foldl_applyOne "artifact_type" us hty item⟩

/-- Split a dict at the first occurrence of a key it contains. -/
theorem dictGet_split (d : PyDict) (k : String) (v : PyVal)
    (h : dictGet d k = some v) :
    ∃ d1 d2, d = d1 ++ (k, v) :: d2 ∧ ∀ kv ∈ d1, kv.1 ≠ k := by
  induction d with
  | nil => simp [dictGet] at h
  | cons kv rest ih =>
    obtain ⟨k0, v0⟩ := kv
    by_cases h0 : k0 = k
    · subst h0
      have hv : v0 = v := by simpa [dictGet] using h
      exact ⟨[], rest, by simp [hv], by simp⟩
    · rw [dictGet_cons_ne k0 v0 rest k h0] at h
      obtain ⟨d1, d2, heq, hne⟩ := ih h
      refine ⟨(k0, v0) :: d1, d2, by simp [heq], ?_⟩
      intro kv hm
      rcases List.mem_cons.mp hm with h1 | h1
      · rw [h1]
        exact h0
      · exact hne kv h1

/-- Unfolded form of `_apply_updates`. -/
theorem applyUpdates_eq (item updates : PyDict) :
    PutArtifactUpdate.applyUpdates item updates =
      (dictErase (dictErase updates "artifact_id") "artifact_type").foldl
        (fun it kv => PutArtifactUpdate.applyOne it kv.1 kv.2) item := rfl

/-- Reduction of `_apply_updates` on the `metadata` key with a mapping value: merge into
an existing mapping, otherwise replace. -/
theorem applyOne_metadata (it : PyDict) (pv : PyDict) :
    PutArtifactUpdate.applyOne it "metadata" (.dict pv) =
      match dictGet it "metadata" with
      | some (.dict mv) => dictSet it "metadata" (.dict (dictUpdate mv pv))
      | _ => dictSet it "metadata" (.dict pv) := rfl

/-- C7: when the patch carries a mapping under `metadata` (patch and patch
metadata have the distinct keys of real Python dicts), the merged record's
`metadata`: if the existing `metadata` is a mapping, every key of the patch
mapping maps to the patch's value and every other key keeps its existing
value; otherwise the patch mapping replaces the field outright. -/
theorem metadata_merge_semantics (item updates pv : PyDict)
    (hupd : (dictKeys updates).Nodup) (hpv : (dictKeys pv).Nodup)
    (hpatch : dictGet updates "metadata" = some (.dict pv)) :
    (∀ mv : PyDict, dictGet item "metadata" = some (.dict mv) →
      ∃ mm : PyDict,
        dictGet (PutArtifactUpdate.applyUpdates item updates) "metadata" =
          some (.dict mm) ∧
        ∀ k, dictGet mm k =
          match dictGet pv k with
          | some v => some v
          | Option.none => dictGet mv k) ∧
    ((¬ ∃ mv : PyDict, dictGet item "metadata" = some (.dict mv)) →
      dictGet (PutArtifactUpdate.applyUpdates item updates) "metadata" =
        some (.dict pv)) := by
  have hmeta_us :
      dictGet (dictErase (dictErase updates "artifact_id") "artifact_type") "metadata" =
        some (.dict pv) := by
    rw [PutArtifactUpdate.dictGet_dictErase_ne _ _ _ (by decide),
        PutArtifactUpdate.dictGet_dictErase_ne _ _ _ (by decide), hpatch]
  have hnd_us :
      (dictKeys (dictErase (dictErase updates "artifact_id") "artifact_type")).Nodup := by
    have s1 := PutArtifactUpdate.dictKeys_dictErase_sublist
      (dictErase updates "artifact_id") "artifact_type"
    have s2 := PutArtifactUpdate.dictKeys_dictErase_sublist updates "artifact_id"
    exact List.Nodup.sublist (s1.trans s2) hupd
  obtain ⟨us1, us2, hequs, hne1⟩ :=
    dictGet_split (dictErase (dictErase updates "artifact_id") "artifact_type")
      "metadata" (.dict pv) hmeta_us
  have hkeys : dictKeys (dictErase (dictErase updates "artifact_id") "artifact_type") =
      dictKeys us1 ++ "metadata" :: dictKeys us2 := by
    simp [hequs, dictKeys]
  have hnd_tail : ("metadata" :: dictKeys us2).Nodup := by
    rw [hkeys] at hnd_us
    exact hnd_us.of_append_right
  have hmeta_not2 : "metadata" ∉ dictKeys us2 := (List.nodup_cons.mp hnd_tail).1
  have hne2 : ∀ kv ∈ us2, kv.1 ≠ "metadata" := by
    intro kv hm heq
    exact hmeta_not2 (by rw [← heq]; exact List.mem_map_of_mem Prod.fst hm)
  have hfold : PutArtifactUpdate.applyUpdates item updates =
      us2.foldl (fun it kv => PutArtifactUpdate.applyOne it kv.1 kv.2)
        (PutArtifactUpdate.applyOne
          (us1.foldl (fun it kv => PutArtifactUpdate.applyOne it kv.1 kv.2) item)
          "metadata" (.dict pv)) := by
    rw [applyUpdates_eq, hequs, List.foldl_append, List.foldl_cons]
  have hmeta1 :
      dictGet (us1.foldl (fun it kv => PutArtifactUpdate.applyOne it kv.1 kv.2) item)
        "metadata" = dictGet item "metadata" :=
    PutArtifactUpdate.dictGet_foldl_applyOne "metadata" us1 hne1 item
  constructor
  · intro mv hmv
    have hm1 : dictGet
        (us1.foldl (fun it kv => PutArtifactUpdate.applyOne it kv.1 kv.2) item)
        "metadata" = some (.dict mv) := by rw [hmeta1, hmv]
    have happ : PutArtifactUpdate.applyOne
        (us1.foldl (fun it kv => PutArtifactUpdate.applyOne it kv.1 kv.2) item)
        "metadata" (.dict pv) =
        dictSet (us1.foldl (fun it kv => PutArtifactUpdate.applyOne it kv.1 kv.2) item)
          "metadata" (.dict (dictUpdate mv pv)) := by
      rw [applyOne_metadata, hm1]
    refine ⟨dictUpdate mv pv, ?_, fun k => dictGet_dictUpdate pv hpv mv k⟩
    rw [hfold, happ,
      PutArtifactUpdate.dictGet_foldl_applyOne "metadata" us2 hne2 _,
      dictGet_dictSet_self]
  · intro hnot
    have happ : PutArtifactUpdate.applyOne
        (us1.foldl (fun it kv => PutArtifactUpdate.applyOne it kv.1 kv.2) item)
        "metadata" (.dict pv) =
        dictSet (us1.foldl (fun it kv => PutArtifactUpdate.applyOne it kv.1 kv.2) item)
          "metadata" (.dict pv) := by
      rw [applyOne_metadata]
      cases hm1 : dictGet
          (us1.foldl (fun it kv => PutArtifactUpdate.applyOne it kv.1 kv.2) item)
          "metadata" with
      | none => rfl
      | some w =>
        cases w with
        | dict mv => exact absurd ⟨mv, by rw [← hmeta1]; exact hm1⟩ hnot
        | none => rfl
        | bool b => rfl
        | int n => rfl
        | float f => rfl
        | str t => rfl
        | list xs => rfl
        | set xs => rfl
    rw [hfold, happ,
      PutArtifactUpdate.dictGet_foldl_applyOne "metadata" us2 hne2 _,
      dictGet_dictSet_self]

/-- Witness for C7 at the spec's own scenario: merging patch
`metadata = (a : 1)` into existing `metadata = (a : 0, b : 2)` yields
`a = 1` (patch wins) and `b = 2` (absent key untouched). -/
theorem metadata_merge_semantics_witness :
    ∃ mm : PyDict,
      dictGet (PutArtifactUpdate.applyUpdates
        [("metadata", .dict [("a", .int 0), ("b", .int 2)])]
        [("metadata", .dict [("a", .int 1)])]) "metadata" = some (.dict mm) ∧
      dictGet mm "a" = some (.int 1) ∧ dictGet mm "b" = some (.int 2) := by
  obtain ⟨mm, hmm, hall⟩ :=
    (metadata_merge_semantics
      [("metadata", .dict [("a", .int 0), ("b", .int 2)])]
      [("metadata", .dict [("a", .int 1)])]
      [("a", .int 1)]
      (by decide) (by decide) rfl).1
      [("a", .int 0), ("b", .int 2)] rfl
  exact ⟨mm, hmm, (hall "a").trans rfl, (hall "b").trans rfl⟩

/-- C1 (code bug): on an Update call whose stored type (`model`) is
non-empty and differs from the caller-supplied type (`dataset`), the
handler does not return a structured `409 Conflict` response: the body in
`_error_response` is the set literal from line 76, so the assignment of
`error_code` raises `TypeError`, which propagates to the caller as a fault. -/
theorem conflict_update_raises_typeerror :
    PutArtifactUpdate.lambdaHandler
      ⟨some "Bearer: token", some "m1", some "dataset", [("name", .str "x")]⟩
      ⟨true, .ok (some [("artifact_id", .str "m1"), ("artifact_type", .str "model")]),
        .ok ()⟩ =
      .error "TypeError: set object does not support item assignment" ∧
    ∀ r : PutArtifactUpdate.Response,
      PutArtifactUpdate.lambdaHandler
        ⟨some "Bearer: token", some "m1", some "dataset", [("name", .str "x")]⟩
        ⟨true, .ok (some [("artifact_id", .str "m1"), ("artifact_type", .str "model")]),
          .ok ()⟩ ≠ .ok r := by
  constructor
  · rfl
  · intro r h
    rw [show PutArtifactUpdate.lambdaHandler
        ⟨some "Bearer: token", some "m1", some "dataset", [("name", .str "x")]⟩
        ⟨true, .ok (some [("artifact_id", .str "m1"), ("artifact_type", .str "model")]),
          .ok ()⟩ =
        (.error "TypeError: set object does not support item assignment" :
          Except String PutArtifactUpdate.Response) from rfl] at h
    exact Except.noConfusion h

/-! ## Lemmas about the search scan loop -/

namespace SearchByRegex

theorem processPage_nil (regMatch : String → Bool) (filt : Option String)
    (limit : ℤ) (acc : List SearchResult) :
    processPage regMatch filt limit [] acc = (acc, false) := rfl

theorem processPage_cons_none (regMatch : String → Bool) (filt : Option String)
    (limit : ℤ) (it : Item) (its : List Item) (acc : List SearchResult)
    (h : itemResult regMatch filt it = Option.none) :
    processPage regMatch filt limit (it :: its) acc =
      processPage regMatch filt limit its acc := by
  simp [processPage, h]

theorem processPage_cons_some_full (regMatch : String → Bool) (filt : Option String)
    (limit : ℤ) (it : Item) (its : List Item) (acc : List SearchResult)
    (r : SearchResult) (h : itemResult regMatch filt it = some r)
    (hge : ((acc ++ [r]).length : ℤ) ≥ limit) :
    processPage regMatch filt limit (it :: its) acc = (acc ++ [r], true) := by
  simp only [processPage, h]
  rw [if_pos hge]

theorem processPage_cons_some_go (regMatch : String → Bool) (filt : Option String)
    (limit : ℤ) (it : Item) (its : List Item) (acc : List SearchResult)
    (r : SearchResult) (h : itemResult regMatch filt it = some r)
    (hlt : ¬ ((acc ++ [r]).length : ℤ) ≥ limit) :
    processPage regMatch filt limit (it :: its) acc =
      processPage regMatch filt limit its (acc ++ [r]) := by
  simp only [processPage, h]
  rw [if_neg hlt]

/-- Invariant of the page loop: entering strictly below the limit, the
accumulator never exceeds the limit, and a non-early exit stays strictly
below it. -/
theorem processPage_bound (regMatch : String → Bool) (filt : Option String)
    (limit : ℤ) :
    ∀ (items : List Item) (acc : List SearchResult), (acc.length : ℤ) < limit →
      ((processPage regMatch filt limit items acc).1.length : ℤ) ≤ limit ∧
      ((processPage regMatch filt limit items acc).2 = false →
        ((processPage regMatch filt limit items acc).1.length : ℤ) < limit) := by
  intro items
  induction items with
  | nil =>
    intro acc hacc
    rw [processPage_nil]
    exact ⟨le_of_lt hacc, fun _ => hacc⟩
  | cons it its ih =>
    intro acc hacc
    cases hir : itemResult regMatch filt it with
    | none =>
      rw [processPage_cons_none regMatch filt limit it its acc hir]
      exact ih acc hacc
    | some r =>
      have hlen : ((acc ++ [r]).length : ℤ) = (acc.length : ℤ) + 1 := by
        simp
      by_cases hge : ((acc ++ [r]).length : ℤ) ≥ limit
      · rw [processPage_cons_some_full regMatch filt limit it its acc r hir hge]
        refine ⟨?_, fun hfalse => by simp at hfalse⟩
        rw [hlen]
        omega
      · rw [processPage_cons_some_go regMatch filt limit it its acc r hir hge]
        apply ih
        omega

theorem scanLoop_nil (regMatch : String → Bool) (filt : Option String)
    (limit : ℤ) (acc : List SearchResult) :
    scanLoop regMatch filt limit [] acc = (acc, 0) := rfl

theorem scanLoop_cons (regMatch : String → Bool) (filt : Option String)
    (limit : ℤ) (page : List Item) (rest : List (List Item))
    (acc : List SearchResult) :
    scanLoop regMatch filt limit (page :: rest) acc =
      match processPage regMatch filt limit page acc with
      | (acc2, true) => (acc2, 1)
      | (acc2, false) =>
          ((scanLoop regMatch filt limit rest acc2).1,
           (scanLoop regMatch filt limit rest acc2).2 + 1) := rfl

/-- The pagination loop preserves the limit bound. -/
theorem scanLoop_bound (regMatch : String → Bool) (filt : Option String)
    (limit : ℤ) :
    ∀ (pages : List (List Item)) (acc : List SearchResult),
      (acc.length : ℤ) < limit →
      ((scanLoop regMatch filt limit pages acc).1.length : ℤ) ≤ limit := by
  intro pages
  induction pages with
  | nil =>
    intro acc hacc
    rw [scanLoop_nil]
    exact le_of_lt hacc
  | cons page rest ih =>
    intro acc hacc
    rw [scanLoop_cons]
    have hbound := processPage_bound regMatch filt limit page acc hacc
    cases heq : processPage regMatch filt limit page acc with
    | mk acc2 early =>
      rw [heq] at hbound
      cases early with
      | true => exact hbound.1
      | false =>
        have hlt : ((acc2 : List SearchResult).length : ℤ) < limit := hbound.2 rfl
        exact ih acc2 hlt

end SearchByRegex

namespace SearchByRegex

/-- Number of items of a page that pass all checks and match. -/
def pageMatchCount (regMatch : String → Bool) (filt : Option String)
    (items : List Item) : ℕ :=
  (items.filterMap (itemResult regMatch filt)).length

/-- Total number of matches over a sequence of pages. -/
def totalMatchCount (regMatch : String → Bool) (filt : Option String)
    (pages : List (List Item)) : ℕ :=
  (pages.map (pageMatchCount regMatch filt)).sum

/-- When the page cannot bring the accumulator up to the limit, the loop
appends exactly the page matches, in order, and does not return early. -/
theorem processPage_no_limit (regMatch : String → Bool) (filt : Option String)
    (limit : ℤ) :
    ∀ (items : List Item) (acc : List SearchResult),
      (acc.length : ℤ) + (pageMatchCount regMatch filt items : ℤ) < limit →
      processPage regMatch filt limit items acc =
        (acc ++ items.filterMap (itemResult regMatch filt), false) := by
  intro items
  induction items with
  | nil =>
    intro acc h
    simp [processPage_nil]
  | cons it its ih =>
    intro acc h
    cases hir : itemResult regMatch filt it with
    | none =>
      have hcnt : pageMatchCount regMatch filt (it :: its) =
          pageMatchCount regMatch filt its := by
        simp [pageMatchCount, List.filterMap_cons, hir]
      rw [processPage_cons_none regMatch filt limit it its acc hir,
        ih acc (by omega)]
      simp [List.filterMap_cons, hir]
    | some r =>
      have hcnt : pageMatchCount regMatch filt (it :: its) =
          pageMatchCount regMatch filt its + 1 := by
        simp [pageMatchCount, List.filterMap_cons, hir]
      have hlen : ((acc ++ [r]).length : ℤ) = (acc.length : ℤ) + 1 := by simp
      have hng : ¬ ((acc ++ [r]).length : ℤ) ≥ limit := by omega
      rw [processPage_cons_some_go regMatch filt limit it its acc r hir hng,
        ih (acc ++ [r]) (by omega)]
      simp [List.filterMap_cons, hir]

/-- When the page brings the accumulator up to the limit (entering strictly
below it), the early `return results` fires on this page and the results
at that moment number exactly `limit`. -/
theorem processPage_reaches_limit (regMatch : String → Bool) (filt : Option String)
    (limit : ℤ) :
    ∀ (items : List Item) (acc : List SearchResult), (acc.length : ℤ) < limit →
      (acc.length : ℤ) + (pageMatchCount regMatch filt items : ℤ) ≥ limit →
      (processPage regMatch filt limit items acc).2 = true ∧
      ((processPage regMatch filt limit items acc).1.length : ℤ) = limit := by
  intro items
  induction items with
  | nil =>
    intro acc hacc hcount
    simp [pageMatchCount] at hcount
    omega
  | cons it its ih =>
    intro acc hacc hcount
    cases hir : itemResult regMatch filt it with
    | none =>
      rw [processPage_cons_none regMatch filt limit it its acc hir]
      have hcnt : pageMatchCount regMatch filt (it :: its) =
          pageMatchCount regMatch filt its := by
        simp [pageMatchCount, List.filterMap_cons, hir]
      exact ih acc hacc (by omega)
    | some r =>
      have hcnt : pageMatchCount regMatch filt (it :: its) =
          pageMatchCount regMatch filt its + 1 := by
        simp [pageMatchCount, List.filterMap_cons, hir]
      have hlen : ((acc ++ [r]).length : ℤ) = (acc.length : ℤ) + 1 := by simp
      by_cases hge : ((acc ++ [r]).length : ℤ) ≥ limit
      · rw [processPage_cons_some_full regMatch filt limit it its acc r hir hge]
        refine ⟨rfl, ?_⟩
        show ((acc ++ [r]).length : ℤ) = limit
        omega
      · rw [processPage_cons_some_go regMatch filt limit it its acc r hir hge]
        exact ih (acc ++ [r]) (by omega) (by omega)

/-- Reduction of the pagination loop when the page triggers the early
return: this page is the last one fetched. -/
theorem scanLoop_cons_early (regMatch : String → Bool) (filt : Option String)
    (limit : ℤ) (page : List Item) (rest : List (List Item))
    (acc acc2 : List SearchResult)
    (h : processPage regMatch filt limit page acc = (acc2, true)) :
    scanLoop regMatch filt limit (page :: rest) acc = (acc2, 1) := by
  rw [scanLoop_cons, h]

/-- Reduction of the pagination loop when the page does not trigger the
early return: the loop continues with the extended accumulator. -/
theorem scanLoop_cons_go (regMatch : String → Bool) (filt : Option String)
    (limit : ℤ) (page : List Item) (rest : List (List Item))
    (acc acc2 : List SearchResult)
    (h : processPage regMatch filt limit page acc = (acc2, false)) :
    scanLoop regMatch filt limit (page :: rest) acc =
      ((scanLoop regMatch filt limit rest acc2).1,
       (scanLoop regMatch filt limit rest acc2).2 + 1) := by
  rw [scanLoop_cons, h]

/-- The pagination loop walks through a prefix of pages whose cumulative
match count stays below the limit without returning: it appends all their
matches to the accumulator, fetches each of them, and continues. -/
theorem scanLoop_through_prefix (regMatch : String → Bool) (filt : Option String)
    (limit : ℤ) :
    ∀ (pref more : List (List Item)) (acc : List SearchResult),
      (acc.length : ℤ) + (totalMatchCount regMatch filt pref : ℤ) < limit →
      scanLoop regMatch filt limit (pref ++ more) acc =
        ((scanLoop regMatch filt limit more
            (acc ++ (pref.map (fun p => p.filterMap (itemResult regMatch filt))).flatten)).1,
         (scanLoop regMatch filt limit more
            (acc ++ (pref.map (fun p => p.filterMap (itemResult regMatch filt))).flatten)).2
           + pref.length) := by
  intro pref
  induction pref with
  | nil =>
    intro more acc h
    simp
  | cons p pref ih =>
    intro more acc h
    have htot : totalMatchCount regMatch filt (p :: pref) =
        pageMatchCount regMatch filt p + totalMatchCount regMatch filt pref := by
      simp [totalMatchCount]
    have hA := processPage_no_limit regMatch filt limit p acc (by omega)
    rw [List.cons_append,
      scanLoop_cons_go regMatch filt limit p (pref ++ more) acc _ hA]
    have hlen2 : ((acc ++ p.filterMap (itemResult regMatch filt)).length : ℤ) =
        (acc.length : ℤ) + (pageMatchCount regMatch filt p : ℤ) := by
      simp [pageMatchCount]
    rw [ih more (acc ++ p.filterMap (itemResult regMatch filt)) (by omega)]
    simp only [List.map_cons, List.flatten_cons, List.length_cons, Prod.mk.injEq]
    constructor
    · rw [List.append_assoc]
    · rw [List.append_assoc]
      omega

/-- If some page of the sequence alone yields at least `limit` matches, the
loop fetches no page beyond it (entering below the limit). -/
theorem scanLoop_page_bound (regMatch : String → Bool) (filt : Option String)
    (limit : ℤ) :
    ∀ (pages : List (List Item)) (acc : List SearchResult),
      (acc.length : ℤ) < limit →
      ∀ (i : ℕ) (hi : i < pages.length),
        (pageMatchCount regMatch filt (pages.get ⟨i, hi⟩) : ℤ) ≥ limit →
        (scanLoop regMatch filt limit pages acc).2 ≤ i + 1 := by
  intro pages
  induction pages with
  | nil =>
    intro acc hacc i hi
    simp at hi
  | cons page rest ih =>
    intro acc hacc i hi hcount
    cases heq : processPage regMatch filt limit page acc with
    | mk acc2 early =>
      cases early with
      | true =>
        rw [scanLoop_cons_early regMatch filt limit page rest acc acc2 heq]
        show 1 ≤ i + 1
        omega
      | false =>
        rw [scanLoop_cons_go regMatch filt limit page rest acc acc2 heq]
        cases i with
        | zero =>
          have hc0 : (pageMatchCount regMatch filt page : ℤ) ≥ limit := by
            simpa using hcount
          have hnn : (0 : ℤ) ≤ (acc.length : ℤ) := Int.natCast_nonneg _
          have hB := processPage_reaches_limit regMatch filt limit page acc hacc
            (by omega)
          rw [heq] at hB
          exact absurd hB.1 (by simp)
        | succ j =>
          have hb := processPage_bound regMatch filt limit page acc hacc
          rw [heq] at hb
          have hacc2 : ((acc2 : List SearchResult).length : ℤ) < limit := hb.2 rfl
          have hj := ih acc2 hacc2 j (by simpa using hi) (by simpa using hcount)
          show (scanLoop regMatch filt limit rest acc2).2 + 1 ≤ j + 1 + 1
          omega

end SearchByRegex

/-- C4 counterexample: with caller-supplied `limit = 0` and one matching
record, the search returns one item — more than the requested limit — since
`len(results) >= limit` is only consulted after an append. -/
theorem search_limit_zero_exceeds_limit :
    (SearchByRegex.searchArtifactsByRegex (fun _ => true) Option.none 0
      [[⟨.str "alpha", .str "id-a", .str "model", .none⟩]]).1.length = 1 ∧
    ¬ (((SearchByRegex.searchArtifactsByRegex (fun _ => true) Option.none 0
      [[⟨.str "alpha", .str "id-a", .str "model", .none⟩]]).1.length : ℤ) ≤ 0) := by
  have h : (SearchByRegex.searchArtifactsByRegex (fun _ => true) Option.none 0
      [[⟨.str "alpha", .str "id-a", .str "model", .none⟩]]).1.length = 1 := rfl
  refine ⟨h, ?_⟩
  rw [h]
  decide

/-- C4 (amended): for every match oracle, type filter, page sequence and
caller-supplied limit that is at least 1, the search returns at most
`limit` items.  (With `limit ≤ 0` the search can return one item, as the
counterexample shows.) -/
theorem search_respects_positive_limit (regMatch : String → Bool)
    (filt : Option String) (limit : ℤ) (pages : List (List SearchByRegex.Item))
    (h : 1 ≤ limit) :
    ((SearchByRegex.searchArtifactsByRegex regMatch filt limit pages).1.length : ℤ)
      ≤ limit :=
  SearchByRegex.scanLoop_bound regMatch filt limit pages [] (by simpa using h)

/-- Witness for C4 at a concrete input: limit 2, three matching records on
one page; at most 2 are returned. -/
theorem search_respects_positive_limit_witness :
    (1 : ℤ) ≤ 2 ∧
    ((SearchByRegex.searchArtifactsByRegex (fun _ => true) Option.none 2
      [[⟨.str "alpha", .str "id-a", .str "model", .none⟩,
        ⟨.str "beta", .str "id-b", .str "model", .none⟩,
        ⟨.str "gamma", .str "id-c", .str "model", .none⟩]]).1.length : ℤ) ≤ 2 :=
  ⟨by decide,
   search_respects_positive_limit (fun _ => true) Option.none 2
     [[⟨.str "alpha", .str "id-a", .str "model", .none⟩,
       ⟨.str "beta", .str "id-b", .str "model", .none⟩,
       ⟨.str "gamma", .str "id-c", .str "model", .none⟩]] (by decide)⟩

/-- C5 counterexample: with `limit = 0`, the first page trivially yields at
least `limit` matches (zero of them), yet the loop goes on to fetch the
second page: two `table.scan` calls happen. -/
theorem search_zero_limit_fetches_later_pages :
    (SearchByRegex.pageMatchCount (fun _ => false) Option.none
      [⟨.str "alpha", .str "id-a", .str "model", .none⟩] : ℤ) ≥ 0 ∧
    (SearchByRegex.searchArtifactsByRegex (fun _ => false) Option.none 0
      [[⟨.str "alpha", .str "id-a", .str "model", .none⟩],
       [⟨.str "beta", .str "id-b", .str "model", .none⟩]]).2 = 2 :=
  ⟨by decide, rfl⟩

/-- C5 (amended): for a positive caller-supplied limit, the search returns
the moment its accumulated results reach `limit`, without fetching further
pages: (a) whenever a prefix of the page sequence accumulates fewer than
`limit` matches and the next page brings the cumulative total to at least
`limit`, the search returns exactly `limit` results from within that page,
having fetched only the prefix plus that one page — the pages after it are
never fetched; and (b) if any single page yields at least `limit` matches
by itself, no page beyond it is ever fetched.  (With `limit = 0`, the
counterexample shows later pages can still be fetched.) -/
theorem search_stops_once_limit_accumulated (regMatch : String → Bool)
    (filt : Option String) (limit : ℤ)
    (pages : List (List SearchByRegex.Item)) (hlim : 1 ≤ limit) :
    (∀ (pref : List (List SearchByRegex.Item)) (page : List SearchByRegex.Item)
      (rest : List (List SearchByRegex.Item)),
      pages = pref ++ page :: rest →
      (SearchByRegex.totalMatchCount regMatch filt pref : ℤ) < limit →
      (SearchByRegex.totalMatchCount regMatch filt pref : ℤ) +
        (SearchByRegex.pageMatchCount regMatch filt page : ℤ) ≥ limit →
      (SearchByRegex.searchArtifactsByRegex regMatch filt limit pages).2 =
        pref.length + 1 ∧
      ((SearchByRegex.searchArtifactsByRegex regMatch filt limit pages).1.length : ℤ) =
        limit) ∧
    (∀ (i : ℕ) (hi : i < pages.length),
      (SearchByRegex.pageMatchCount regMatch filt (pages.get ⟨i, hi⟩) : ℤ) ≥ limit →
      (SearchByRegex.searchArtifactsByRegex regMatch filt limit pages).2 ≤ i + 1) := by
  constructor
  · intro pref page rest hpages hpref hreach
    subst hpages
    unfold SearchByRegex.searchArtifactsByRegex
    rw [SearchByRegex.scanLoop_through_prefix regMatch filt limit pref (page :: rest) []
      (by simpa using hpref)]
    have hlenN : (([] : List SearchByRegex.SearchResult) ++
        (pref.map (fun p =>
          p.filterMap (SearchByRegex.itemResult regMatch filt))).flatten).length =
        SearchByRegex.totalMatchCount regMatch filt pref := by
      simp only [List.nil_append, List.length_flatten, List.map_map]
      rfl
    have hB := SearchByRegex.processPage_reaches_limit regMatch filt limit page
      (([] : List SearchByRegex.SearchResult) ++
        (pref.map (fun p =>
          p.filterMap (SearchByRegex.itemResult regMatch filt))).flatten)
      (by omega) (by omega)
    cases heq : SearchByRegex.processPage regMatch filt limit page
        (([] : List SearchByRegex.SearchResult) ++
          (pref.map (fun p =>
            p.filterMap (SearchByRegex.itemResult regMatch filt))).flatten) with
    | mk out early =>
      rw [heq] at hB
      have hearly : early = true := hB.1
      subst hearly
      rw [SearchByRegex.scanLoop_cons_early regMatch filt limit page rest _ out heq]
      refine ⟨?_, ?_⟩
      · show 1 + pref.length = pref.length + 1
        omega
      · exact hB.2
  · intro i hi hcount
    exact SearchByRegex.scanLoop_page_bound regMatch filt limit pages []
      (by simp only [List.length_nil, Nat.cast_zero]; omega) i hi hcount

/-- Witness for C5 at concrete inputs: with limit 2 and one match per page,
the scan stops inside page two — two pages fetched, exactly two results,
page three never fetched; and in a second run, a page with two matches at
index 1 bounds the number of fetched pages by 2. -/
theorem search_stops_once_limit_accumulated_witness :
    ((SearchByRegex.searchArtifactsByRegex (fun _ => true) Option.none 2
      [[⟨.str "alpha", .str "id-a", .str "model", .none⟩],
       [⟨.str "beta", .str "id-b", .str "model", .none⟩],
       [⟨.str "gamma", .str "id-c", .str "model", .none⟩]]).2 = 2 ∧
     ((SearchByRegex.searchArtifactsByRegex (fun _ => true) Option.none 2
      [[⟨.str "alpha", .str "id-a", .str "model", .none⟩],
       [⟨.str "beta", .str "id-b", .str "model", .none⟩],
       [⟨.str "gamma", .str "id-c", .str "model", .none⟩]]).1.length : ℤ) = 2) ∧
    (SearchByRegex.searchArtifactsByRegex (fun _ => true) Option.none 2
      [[⟨.str "alpha", .str "id-a", .str "model", .none⟩],
       [⟨.str "beta", .str "id-b", .str "model", .none⟩,
        ⟨.str "gamma", .str "id-c", .str "model", .none⟩],
       [⟨.str "delta", .str "id-d", .str "model", .none⟩]]).2 ≤ 2 :=
  ⟨(search_stops_once_limit_accumulated (fun _ => true) Option.none 2
      [[⟨.str "alpha", .str "id-a", .str "model", .none⟩],
       [⟨.str "beta", .str "id-b", .str "model", .none⟩],
       [⟨.str "gamma", .str "id-c", .str "model", .none⟩]] (by decide)).1
      [[⟨.str "alpha", .str "id-a", .str "model", .none⟩]]
      [⟨.str "beta", .str "id-b", .str "model", .none⟩]
      [[⟨.str "gamma", .str "id-c", .str "model", .none⟩]]
      rfl (by decide) (by decide),
   (search_stops_once_limit_accumulated (fun _ => true) Option.none 2
      [[⟨.str "alpha", .str "id-a", .str "model", .none⟩],
       [⟨.str "beta", .str "id-b", .str "model", .none⟩,
        ⟨.str "gamma", .str "id-c", .str "model", .none⟩],
       [⟨.str "delta", .str "id-d", .str "model", .none⟩]] (by decide)).2
      1 (by decide) (by decide)⟩

namespace SearchByRegex

/-- Whether a dynamic value is a Python `str` (`isinstance(v, str)`). -/
def isStr : PyVal → Bool
  | .str _ => true
  | _ => false

/-- An item whose stored `artifact_type` is not a string is skipped: it can
never yield a result, whatever the oracle and filter. -/
theorem itemResult_none_of_type_not_str (regMatch : String → Bool)
    (filt : Option String) (it : Item) (h : isStr it.artifact_type = false) :
    itemResult regMatch filt it = Option.none := by
  obtain ⟨nm, aid, atv, md⟩ := it
  cases nm <;> try rfl
  cases aid <;> try rfl
  cases atv <;> try rfl
  simp [isStr] at h

/-- A yielded result comes with a string-typed source item whose type it
lower-cases and whose name and id it carries. -/
theorem itemResult_provenance (regMatch : String → Bool) (filt : Option String)
    (it : Item) (r : SearchResult) (h : itemResult regMatch filt it = some r) :
    ∃ s, it.artifact_type = .str s ∧ r.type = pyLower s ∧
      it.name = .str r.name ∧ it.artifact_id = .str r.id := by
  obtain ⟨nm, aid, atv, md⟩ := it
  cases nm <;> try exact Option.noConfusion h
  cases aid <;> try exact Option.noConfusion h
  cases atv <;> try exact Option.noConfusion h
  rename_i nms aids atvs
  simp only [itemResult] at h
  split at h
  · exact absurd h (by simp)
  · split at h
    · exact absurd h (by simp)
    · rw [Option.some.injEq] at h
      subst h
      exact ⟨atvs, rfl, rfl, rfl, rfl⟩

/-- Dropping an item that yields no result does not change the page loop. -/
theorem processPage_skip (regMatch : String → Bool) (filt : Option String)
    (limit : ℤ) (it : Item) (h : itemResult regMatch filt it = Option.none) :
    ∀ (l1 l2 : List Item) (acc : List SearchResult),
      processPage regMatch filt limit (l1 ++ it :: l2) acc =
        processPage regMatch filt limit (l1 ++ l2) acc := by
  intro l1
  induction l1 with
  | nil =>
    intro l2 acc
    simpa using processPage_cons_none regMatch filt limit it l2 acc h
  | cons x l1 ih =>
    intro l2 acc
    simp only [List.cons_append]
    cases hx : itemResult regMatch filt x with
    | none =>
      rw [processPage_cons_none regMatch filt limit x _ acc hx,
          processPage_cons_none regMatch filt limit x _ acc hx, ih]
    | some r =>
      by_cases hge : ((acc ++ [r]).length : ℤ) ≥ limit
      · rw [processPage_cons_some_full regMatch filt limit x _ acc r hx hge,
            processPage_cons_some_full regMatch filt limit x _ acc r hx hge]
      · rw [processPage_cons_some_go regMatch filt limit x _ acc r hx hge,
            processPage_cons_some_go regMatch filt limit x _ acc r hx hge, ih]

/-- Dropping a no-result item anywhere in the page sequence does not change
the search outcome (results nor pages fetched). -/
theorem scanLoop_skip (regMatch : String → Bool) (filt : Option String)
    (limit : ℤ) (it : Item) (h : itemResult regMatch filt it = Option.none) :
    ∀ (pages1 : List (List Item)) (l1 l2 : List Item)
      (pages2 : List (List Item)) (acc : List SearchResult),
      scanLoop regMatch filt limit (pages1 ++ (l1 ++ it :: l2) :: pages2) acc =
        scanLoop regMatch filt limit (pages1 ++ (l1 ++ l2) :: pages2) acc := by
  intro pages1
  induction pages1 with
  | nil =>
    intro l1 l2 pages2 acc
    simp only [List.nil_append]
    rw [scanLoop_cons, scanLoop_cons, processPage_skip regMatch filt limit it h l1 l2 acc]
  | cons p ps ih =>
    intro l1 l2 pages2 acc
    simp only [List.cons_append]
    rw [scanLoop_cons, scanLoop_cons]
    cases heq : processPage regMatch filt limit p acc with
    | mk acc2 early =>
      cases early with
      | true => rfl
      | false => simp only [ih l1 l2 pages2 acc2]

/-- Every result of the page loop was in the accumulator or produced by an
item of the page. -/
theorem processPage_provenance (regMatch : String → Bool) (filt : Option String)
    (limit : ℤ) :
    ∀ (items : List Item) (acc : List SearchResult) (r : SearchResult),
      r ∈ (processPage regMatch filt limit items acc).1 →
      r ∈ acc ∨ ∃ it ∈ items, itemResult regMatch filt it = some r := by
  intro items
  induction items with
  | nil =>
    intro acc r hr
    rw [processPage_nil] at hr
    exact .inl hr
  | cons it its ih =>
    intro acc r hr
    cases hir : itemResult regMatch filt it with
    | none =>
      rw [processPage_cons_none regMatch filt limit it its acc hir] at hr
      rcases ih acc r hr with hin | ⟨it0, hm, he⟩
      · exact .inl hin
      · exact .inr ⟨it0, by simp [hm], he⟩
    | some r0 =>
      by_cases hge : ((acc ++ [r0]).length : ℤ) ≥ limit
      · rw [processPage_cons_some_full regMatch filt limit it its acc r0 hir hge] at hr
        rcases List.mem_append.mp hr with hin | hone
        · exact .inl hin
        · have : r = r0 := by simpa using hone
          exact .inr ⟨it, by simp, by rw [this]; exact hir⟩
      · rw [processPage_cons_some_go regMatch filt limit it its acc r0 hir hge] at hr
        rcases ih (acc ++ [r0]) r hr with hin | ⟨it0, hm, he⟩
        · rcases List.mem_append.mp hin with hin2 | hone
          · exact .inl hin2
          · have : r = r0 := by simpa using hone
            exact .inr ⟨it, by simp, by rw [this]; exact hir⟩
        · exact .inr ⟨it0, by simp [hm], he⟩

/-- Every result of the pagination loop was in the accumulator or produced
by an item of one of the pages. -/
theorem scanLoop_provenance (regMatch : String → Bool) (filt : Option String)
    (limit : ℤ) :
    ∀ (pages : List (List Item)) (acc : List SearchResult) (r : SearchResult),
      r ∈ (scanLoop regMatch filt limit pages acc).1 →
      r ∈ acc ∨ ∃ page ∈ pages, ∃ it ∈ page, itemResult regMatch filt it = some r := by
  intro pages
  induction pages with
  | nil =>
    intro acc r hr
    rw [scanLoop_nil] at hr
    exact .inl hr
  | cons page rest ih =>
    intro acc r hr
    rw [scanLoop_cons] at hr
    cases heq : processPage regMatch filt limit page acc with
    | mk acc2 early =>
      rw [heq] at hr
      have hacc2 : acc2 = (processPage regMatch filt limit page acc).1 := by
        rw [heq]
      cases early with
      | true =>
        have hr2 : r ∈ acc2 := hr
        rcases processPage_provenance regMatch filt limit page acc r
          (hacc2 ▸ hr2) with hin | ⟨it0, hm, he⟩
        · exact .inl hin
        · exact .inr ⟨page, by simp, it0, hm, he⟩
      | false =>
        have hr2 : r ∈ (scanLoop regMatch filt limit rest acc2).1 := hr
        rcases ih acc2 r hr2 with hin | ⟨pg, hpg, it0, hm, he⟩
        · rcases processPage_provenance regMatch filt limit page acc r
            (hacc2 ▸ hin) with hin2 | ⟨it0, hm, he⟩
          · exact .inl hin2
          · exact .inr ⟨page, by simp, it0, hm, he⟩
        · exact .inr ⟨pg, by simp [hpg], it0, hm, he⟩

end SearchByRegex

/-- C10: an item whose stored `artifact_type` is not a string is skipped by
the scan — removing it changes neither the results nor the pages fetched,
filter or no filter — and every returned result carries the lower-cased
form of the string `artifact_type` stored on its source record. -/
theorem search_skips_nonstring_type_and_lowercases (regMatch : String → Bool)
    (filt : Option String) (limit : ℤ)
    (pages1 pages2 : List (List SearchByRegex.Item))
    (l1 l2 : List SearchByRegex.Item) (it : SearchByRegex.Item)
    (h : SearchByRegex.isStr it.artifact_type = false) :
    SearchByRegex.searchArtifactsByRegex regMatch filt limit
        (pages1 ++ (l1 ++ it :: l2) :: pages2) =
      SearchByRegex.searchArtifactsByRegex regMatch filt limit
        (pages1 ++ (l1 ++ l2) :: pages2) ∧
    ∀ r ∈ (SearchByRegex.searchArtifactsByRegex regMatch filt limit
        (pages1 ++ (l1 ++ it :: l2) :: pages2)).1,
      ∃ page ∈ pages1 ++ (l1 ++ it :: l2) :: pages2, ∃ it0 ∈ page, ∃ s,
        it0.artifact_type = .str s ∧ r.type = pyLower s ∧
        it0.name = .str r.name ∧ it0.artifact_id = .str r.id := by
  have hnone := SearchByRegex.itemResult_none_of_type_not_str regMatch filt it h
  constructor
  · exact SearchByRegex.scanLoop_skip regMatch filt limit it hnone pages1 l1 l2 pages2 []
  · intro r hr
    rcases SearchByRegex.scanLoop_provenance regMatch filt limit _ [] r hr with
      hin | ⟨page, hpg, it0, hm, he⟩
    · exact absurd hin (List.not_mem_nil r)
    · obtain ⟨s, hty, hlow, hnm, hid⟩ :=
        SearchByRegex.itemResult_provenance regMatch filt it0 r he
      exact ⟨page, hpg, it0, hm, s, hty, hlow, hnm, hid⟩

/-- Witness for C10 at a concrete input: a record with an integer
`artifact_type` contributes nothing to the search outcome. -/
theorem search_skips_nonstring_type_witness :
    SearchByRegex.searchArtifactsByRegex (fun _ => true) Option.none 10
        [[⟨.str "alpha", .str "id-a", .str "Model", .none⟩,
          ⟨.str "beta", .str "id-b", .int 3, .none⟩]] =
      SearchByRegex.searchArtifactsByRegex (fun _ => true) Option.none 10
        [[⟨.str "alpha", .str "id-a", .str "Model", .none⟩]] := by
  have hmain := (search_skips_nonstring_type_and_lowercases (fun _ => true)
    Option.none 10 [] []
    [⟨.str "alpha", .str "id-a", .str "Model", .none⟩] []
    ⟨.str "beta", .str "id-b", .int 3, .none⟩ rfl).1
  simpa using hmain

namespace FileExtraction

theorem getFile_putFile_self (files : List (String × String)) (k : String) (v : String) :
    getFile (putFile files k v) k = some v := by
  induction files with
  | nil => simp [putFile, getFile]
  | cons kv rest ih =>
    obtain ⟨k0, v0⟩ := kv
    by_cases h : k0 = k <;> simp [putFile, getFile, h, ih]

theorem getFile_putFile_ne (files : List (String × String)) (k k0 : String)
    (v : String) (h : k ≠ k0) :
    getFile (putFile files k v) k0 = getFile files k0 := by
  induction files with
  | nil => simp [putFile, getFile, h]
  | cons kv rest ih =>
    obtain ⟨k1, v1⟩ := kv
    by_cases h1 : k1 = k
    · subst h1
      simp [putFile, getFile, h]
    · simp [putFile, getFile, h1, ih]

/-- Every binding produced by the extraction fold either was already in the
accumulator or comes from a member of the list, ignore-decoded and
truncated. -/
theorem fold_extract_provenance (maxChars : ℕ) :
    ∀ (ms : List TarEntry) (acc : List (String × String)) (nm : String) (ct : String),
      getFile (ms.foldl (fun files m =>
        match m.data with
        | Option.none => files
        | some bytes =>
            putFile files m.name (String.mk ((utf8Decode false bytes).take maxChars))) acc)
        nm = some ct →
      getFile acc nm = some ct ∨
        ∃ m ∈ ms, ∃ bytes, m.data = some bytes ∧ nm = m.name ∧
          ct = String.mk ((utf8Decode false bytes).take maxChars) := by
  intro ms
  induction ms with
  | nil =>
    intro acc nm ct h
    exact .inl h
  | cons m ms ih =>
    intro acc nm ct h
    rw [List.foldl_cons] at h
    rcases ih _ nm ct h with hacc | ⟨m0, hm0, bytes, hb, hnm, hct⟩
    · cases hd : m.data with
      | none =>
        rw [hd] at hacc
        exact .inl hacc
      | some bytes =>
        rw [hd] at hacc
        by_cases hk : m.name = nm
        · subst hk
          rw [getFile_putFile_self] at hacc
          exact .inr ⟨m, by simp, bytes, hd, rfl, (Option.some.injEq _ _).mp hacc.symm⟩
        · rw [getFile_putFile_ne acc m.name nm _ hk] at hacc
          exact .inl hacc
    · exact .inr ⟨m0, by simp [hm0], bytes, hb, hnm, hct⟩

end FileExtraction

/-- C3 counterexample: the byte sequence `0xFF 0x41` ('A' after one invalid
byte).  The source decodes with `errors="ignore"`, yielding `"A"`; decoding
with invalid-sequence *replacement*, as the spec says, would yield
`"� A"`.  The two extraction results differ. -/
theorem extract_decodes_with_ignore_not_replace :
    FileExtraction.getFile (FileExtraction.extractFilesFromTar
      [⟨"f", true, some [255, 65]⟩] 4000) "f" = some "A" ∧
    FileExtraction.getFile (FileExtraction.extractFilesFromTarSpecReplace
      [⟨"f", true, some [255, 65]⟩] 4000) "f" =
      some (String.mk [Char.ofNat 0xFFFD, 'A']) ∧
    FileExtraction.extractFilesFromTar [⟨"f", true, some [255, 65]⟩] 4000 ≠
      FileExtraction.extractFilesFromTarSpecReplace
        [⟨"f", true, some [255, 65]⟩] 4000 := by
  refine ⟨rfl, rfl, ?_⟩
  decide

/-- C3 (amended): every entry recorded by `extract_files_from_tar` is the
raw bytes of a regular-file member decoded as UTF-8 with invalid sequences
*ignored* (dropped — decoding is total and never raises), truncated to
`maxChars` characters. -/
theorem extract_ignore_truncate_provenance (entries : List FileExtraction.TarEntry)
    (maxChars : ℕ) (name content : String)
    (h : FileExtraction.getFile
      (FileExtraction.extractFilesFromTar entries maxChars) name = some content) :
    ∃ e ∈ entries, e.isfile = true ∧ ∃ bytes, e.data = some bytes ∧
      name = e.name ∧
      content = String.mk ((FileExtraction.utf8Decode false bytes).take maxChars) ∧
      content.length ≤ maxChars := by
  unfold FileExtraction.extractFilesFromTar at h
  rcases FileExtraction.fold_extract_provenance maxChars
    (entries.filter (fun m => m.isfile)) [] name content h with
    hacc | ⟨m, hm, bytes, hb, hnm, hct⟩
  · exact absurd hacc (by simp [FileExtraction.getFile])
  · have hmem := List.mem_of_mem_filter hm
    have hfile : m.isfile = true := by
      have := List.of_mem_filter hm
      simpa using this
    refine ⟨m, hmem, hfile, bytes, hb, hnm, hct, ?_⟩
    rw [hct]
    calc (String.mk ((FileExtraction.utf8Decode false bytes).take maxChars)).length
        = ((FileExtraction.utf8Decode false bytes).take maxChars).length := rfl
      _ ≤ maxChars := by
          rw [List.length_take]
          exact min_le_left _ _

/-- Witness for C3 at a concrete input: bytes `"hi"` with a one-character
cap; the recorded content is the decoded text truncated to one character. -/
theorem extract_ignore_truncate_provenance_witness :
    ∃ e ∈ [(⟨"f", true, some [104, 105]⟩ : FileExtraction.TarEntry)],
      e.isfile = true ∧ ∃ bytes, e.data = some bytes ∧
      "f" = e.name ∧
      "h" = String.mk ((FileExtraction.utf8Decode false bytes).take 1) ∧
      ("h" : String).length ≤ 1 :=
  extract_ignore_truncate_provenance
    [⟨"f", true, some [104, 105]⟩] 1 "f" "h" rfl

namespace FileExtraction

theorem candLe_iff (pr : Bool) (a b : String × String) :
    candLe pr a b = true ↔
      (sortFlag pr a.1 < sortFlag pr b.1 ∨
        (sortFlag pr a.1 = sortFlag pr b.1 ∧
          (pyLower a.1).data ≤ (pyLower b.1).data)) := by
  unfold candLe
  by_cases h1 : sortFlag pr a.1 < sortFlag pr b.1
  · simp [h1]
  · by_cases h2 : sortFlag pr a.1 = sortFlag pr b.1
    · simp [h1, h2]
    · simp [h1, h2]

theorem candLe_trans (pr : Bool) (a b c : String × String)
    (hab : candLe pr a b = true) (hbc : candLe pr b c = true) :
    candLe pr a c = true := by
  rw [candLe_iff] at hab hbc ⊢
  rcases hab with h1 | ⟨h1, h1le⟩ <;> rcases hbc with h2 | ⟨h2, h2le⟩
  · exact .inl (lt_trans h1 h2)
  · exact .inl (h2 ▸ h1)
  · exact .inl (h1 ▸ h2)
  · exact .inr ⟨h1.trans h2, le_trans h1le h2le⟩

theorem candLe_total (pr : Bool) (a b : String × String) :
    (candLe pr a b || candLe pr b a) = true := by
  rcases lt_trichotomy (sortFlag pr a.1) (sortFlag pr b.1) with h | h | h
  · have : candLe pr a b = true := (candLe_iff pr a b).mpr (.inl h)
    simp [this]
  · rcases le_total ((pyLower a.1).data) ((pyLower b.1).data) with hle | hle
    · have : candLe pr a b = true := (candLe_iff pr a b).mpr (.inr ⟨h, hle⟩)
      simp [this]
    · have : candLe pr b a = true := (candLe_iff pr b a).mpr (.inr ⟨h.symm, hle⟩)
      simp [this]
  · have : candLe pr b a = true := (candLe_iff pr b a).mpr (.inl h)
    simp [this]

theorem sortFlag_true (x : String) :
    sortFlag true x = if isReadme x then 0 else 1 := by
  simp [sortFlag]

end FileExtraction

unseal List.merge List.mergeSort in
/-- C9: with `prioritizeReadme = true`, the selection is sorted with every
README-named candidate before every non-README candidate and ties broken by
lower-cased path ascending; and the spec scenario — files
`README.md, a.py ... e.py` with extensions `[.py]` and `maxFiles = 5` —
selects exactly `README.md, a.py, b.py, c.py, d.py`. -/
theorem select_relevant_readme_first_sorted
    (allFiles : List (String × String)) (includeExt : List String) (maxFiles : ℕ) :
    List.Pairwise (fun a b =>
      (FileExtraction.isReadme b.1 = true → FileExtraction.isReadme a.1 = true) ∧
      (FileExtraction.isReadme a.1 = FileExtraction.isReadme b.1 →
        (pyLower a.1).data ≤ (pyLower b.1).data))
      (FileExtraction.selectRelevantFiles allFiles includeExt maxFiles true) ∧
    FileExtraction.selectRelevantFiles
      [("README.md", "r"), ("a.py", "1"), ("b.py", "2"), ("c.py", "3"),
       ("d.py", "4"), ("e.py", "5")] [".py"] 5 true =
      [("README.md", "r"), ("a.py", "1"), ("b.py", "2"), ("c.py", "3"),
       ("d.py", "4")] := by
  constructor
  · have hsorted := @List.sorted_mergeSort (String × String)
      (FileExtraction.candLe true)
      (FileExtraction.candLe_trans true)
      (FileExtraction.candLe_total true)
      (allFiles.filter (fun p =>
        (true && FileExtraction.isReadme p.1) ||
          includeExt.any (fun ext => pyEndsWith (pyLower p.1) ext)))
    have htake := List.Pairwise.sublist
      (List.take_sublist maxFiles _) hsorted
    refine List.Pairwise.imp ?_ htake
    intro a b hab
    rw [FileExtraction.candLe_iff] at hab
    constructor
    · intro hrb
      have hfb : FileExtraction.sortFlag true b.1 = 0 := by
        rw [FileExtraction.sortFlag_true, if_pos hrb]
      by_contra hra
      have hfa : FileExtraction.sortFlag true a.1 = 1 := by
        rw [FileExtraction.sortFlag_true, if_neg (by simpa using hra)]
      rcases hab with h | ⟨h, _⟩ <;> omega
    · intro heq
      have hfeq : FileExtraction.sortFlag true a.1 = FileExtraction.sortFlag true b.1 := by
        rw [FileExtraction.sortFlag_true, FileExtraction.sortFlag_true, heq]
      rcases hab with h | ⟨_, hle⟩
      · omega
      · exact hle
  · rfl

namespace CodeQuality

/-- Membership of a float result in the unit interval `[0.0, 1.0]`
(non-finite values are outside). -/
def inUnitRange : PyFloat → Bool
  | .fin q => decide (0 ≤ q ∧ q ≤ 1)
  | _ => false

end CodeQuality

/-- C2 counterexample: when inference answers `{"code_quality": 2.0}`, the
scorer passes `2.0` straight through — the returned value lies outside
`[0.0, 1.0]`, and no fault is raised either. -/
theorem score_passes_out_of_range_value_through :
    CodeQuality.score ⟨.ok (), [("main.py", "print")],
      .ok (.dict [("code_quality", .float (.fin 2))])⟩ =
      [("code_quality", .fin 2)] ∧
    CodeQuality.inUnitRange (.fin 2) = false := by
  exact ⟨rfl, by decide⟩

/-- C2 (amended): the scorer is total — it always returns a one-entry dict
`{code_quality: f}` and never raises — and `f` is either the fallback `0.0`
or exactly the float-coercion of the inference response's `code_quality`
value, with no clamping; so the result lies in `[0.0, 1.0]` only when that
coerced value does. -/
theorem score_total_and_unclamped (env : CodeQuality.ScoreEnv) :
    ∃ f, CodeQuality.score env = [("code_quality", f)] ∧
      (f = .fin 0 ∨ ∃ es v, env.llm = .ok (.dict es) ∧
        dictGet es "code_quality" = some v ∧ pyFloat v = some f) := by
  obtain ⟨dl, ex, llm⟩ := env
  cases dl with
  | error e => exact ⟨.fin 0, rfl, .inl rfl⟩
  | ok u =>
    cases ex with
    | nil => exact ⟨.fin 0, rfl, .inl rfl⟩
    | cons p l =>
      cases llm with
      | error e => exact ⟨.fin 0, rfl, .inl rfl⟩
      | ok resp =>
        cases resp with
        | dict es =>
          have hred : CodeQuality.score ⟨.ok u, p :: l, .ok (.dict es)⟩ =
              (match dictGet es "code_quality" with
               | some v =>
                   match pyFloat v with
                   | some f => [("code_quality", f)]
                   | Option.none => CodeQuality.cqZero
               | Option.none => CodeQuality.cqZero) := rfl
          cases hv : dictGet es "code_quality" with
          | none =>
            refine ⟨.fin 0, ?_, .inl rfl⟩
            simp only [hred, hv, CodeQuality.cqZero]
          | some v =>
            cases hpf : pyFloat v with
            | none =>
              refine ⟨.fin 0, ?_, .inl rfl⟩
              simp only [hred, hv, hpf, CodeQuality.cqZero]
            | some f =>
              refine ⟨f, ?_, .inr ⟨es, v, rfl, hv, hpf⟩⟩
              simp only [hred, hv, hpf]
        | none => exact ⟨.fin 0, rfl, .inl rfl⟩
        | bool b => exact ⟨.fin 0, rfl, .inl rfl⟩
        | int n => exact ⟨.fin 0, rfl, .inl rfl⟩
        | float f => exact ⟨.fin 0, rfl, .inl rfl⟩
        | str t => exact ⟨.fin 0, rfl, .inl rfl⟩
        | list xs => exact ⟨.fin 0, rfl, .inl rfl⟩
        | set xs => exact ⟨.fin 0, rfl, .inl rfl⟩

/-- C6: the scorer returns exactly the fallback `{"code_quality": 0.0}`
whenever the download raised, extraction selected no files, or the
inference response is a non-mapping, a mapping without the
`code_quality` key, or carries a value `float()` cannot coerce. -/
theorem score_fallback_cases (env : CodeQuality.ScoreEnv) :
    ((∃ e, env.download = .error e) → CodeQuality.score env = CodeQuality.cqZero) ∧
    (env.extracted = [] → CodeQuality.score env = CodeQuality.cqZero) ∧
    (∀ resp, env.llm = .ok resp → (∀ es, resp ≠ PyVal.dict es) →
      CodeQuality.score env = CodeQuality.cqZero) ∧
    (∀ es, env.llm = .ok (.dict es) → dictGet es "code_quality" = Option.none →
      CodeQuality.score env = CodeQuality.cqZero) ∧
    (∀ es v, env.llm = .ok (.dict es) → dictGet es "code_quality" = some v →
      pyFloat v = Option.none → CodeQuality.score env = CodeQuality.cqZero) := by
  obtain ⟨dl, ex, llm⟩ := env
  refine ⟨?_, ?_, ?_, ?_, ?_⟩
  · rintro ⟨e, he⟩
    subst he
    rfl
  · intro hex
    subst hex
    cases dl with
    | error e => rfl
    | ok u => rfl
  · intro resp hllm hnd
    subst hllm
    cases dl with
    | error e => rfl
    | ok u =>
      cases ex with
      | nil => rfl
      | cons p l =>
        cases resp with
        | dict es => exact absurd rfl (hnd es)
        | none => rfl
        | bool b => rfl
        | int n => rfl
        | float f => rfl
        | str t => rfl
        | list xs => rfl
        | set xs => rfl
  · intro es hllm hv
    subst hllm
    cases dl with
    | error e => rfl
    | ok u =>
      cases ex with
      | nil => rfl
      | cons p l =>
        have hred : CodeQuality.score ⟨.ok u, p :: l, .ok (.dict es)⟩ =
            (match dictGet es "code_quality" with
             | some v =>
                 match pyFloat v with
                 | some f => [("code_quality", f)]
                 | Option.none => CodeQuality.cqZero
             | Option.none => CodeQuality.cqZero) := rfl
        simp only [hred, hv]
  · intro es v hllm hv hpf
    subst hllm
    cases dl with
    | error e => rfl
    | ok u =>
      cases ex with
      | nil => rfl
      | cons p l =>
        have hred : CodeQuality.score ⟨.ok u, p :: l, .ok (.dict es)⟩ =
            (match dictGet es "code_quality" with
             | some v =>
                 match pyFloat v with
                 | some f => [("code_quality", f)]
                 | Option.none => CodeQuality.cqZero
             | Option.none => CodeQuality.cqZero) := rfl
        simp only [hred, hv, hpf]

/-- Witness for C6 at concrete inputs, one per failure mode — the fourth is
the spec's scenario 4, inference answering `{other_field: 0.9}`. -/
theorem score_fallback_cases_witness :
    CodeQuality.score ⟨.error "boom", [("a", "b")],
      .ok (.dict [("code_quality", .float (.fin 1))])⟩ = CodeQuality.cqZero ∧
    CodeQuality.score ⟨.ok (), [],
      .ok (.dict [("code_quality", .float (.fin 1))])⟩ = CodeQuality.cqZero ∧
    CodeQuality.score ⟨.ok (), [("a", "b")], .ok (.str "oops")⟩ = CodeQuality.cqZero ∧
    CodeQuality.score ⟨.ok (), [("a", "b")],
      .ok (.dict [("other_field", .float (.fin (9 / 10)))])⟩ = CodeQuality.cqZero ∧
    CodeQuality.score ⟨.ok (), [("a", "b")],
      .ok (.dict [("code_quality", .none)])⟩ = CodeQuality.cqZero :=
  ⟨(score_fallback_cases _).1 ⟨"boom", rfl⟩,
   (score_fallback_cases _).2.1 rfl,
   (score_fallback_cases _).2.2.1 (.str "oops") rfl (fun _ h => PyVal.noConfusion h),
   (score_fallback_cases _).2.2.2.1 [("other_field", .float (.fin (9 / 10)))] rfl rfl,
   (score_fallback_cases _).2.2.2.2 [("code_quality", PyVal.none)] PyVal.none rfl rfl rfl⟩
